import Mathlib

/-
  Verification development for the static-file-deploy reconciliation engine.

  The Go sources are shallowly embedded: byte payloads are `List Nat`
  (each element a byte value), S3 is a deterministic store threaded
  explicitly, Go maps are association lists with in-place-replace
  insertion (`upsert`), and fallible operations return `Except`/`Option`.
-/

instance {ε α : Type} [DecidableEq ε] [DecidableEq α] : DecidableEq (Except ε α) :=
  fun x y =>
    match x, y with
    | Except.error a, Except.error b =>
      if h : a = b then Decidable.isTrue (h ▸ rfl)
      else Decidable.isFalse (fun hh => h (Except.error.inj hh))
    | Except.ok a, Except.ok b =>
      if h : a = b then Decidable.isTrue (h ▸ rfl)
      else Decidable.isFalse (fun hh => h (Except.ok.inj hh))
    | Except.error _, Except.ok _ => Decidable.isFalse (fun hh => Except.noConfusion hh)
    | Except.ok _, Except.error _ => Decidable.isFalse (fun hh => Except.noConfusion hh)

/-! ## Association-list maps (embedding of Go maps and of S3 key spaces) -/

def upsert {κ α : Type} [DecidableEq κ] : List (κ × α) → κ → α → List (κ × α)
  | [], k, v => [(k, v)]
  | p :: rest, k, v => if p.1 = k then (k, v) :: rest else p :: upsert rest k v

def alookup {κ α : Type} [DecidableEq κ] : List (κ × α) → κ → Option α
  | [], _ => none
  | p :: rest, k => if p.1 = k then some p.2 else alookup rest k

/-- The value that a left-to-right sequence of map writes leaves at key `k`:
the image under `f` of the last element of `l` whose key is `k`. -/
def finalVal {κ β α : Type} [DecidableEq κ] (kf : β → κ) (f : β → α) :
    List β → κ → Option α
  | [], _ => none
  | b :: rest, k =>
    match finalVal kf f rest k with
    | some v => some v
    | none => if kf b = k then some (f b) else none

/-! ## MD5 (embedding of Go crypto/md5 over byte lists, words as Nat mod 2^32) -/

def bitw3 (f : Bool → Bool → Bool → Bool) : Nat → Nat → Nat → Nat → Nat
  | 0, _, _, _ => 0
  | fuel+1, a, b, c =>
      (if f (a % 2 == 1) (b % 2 == 1) (c % 2 == 1) then 1 else 0)
        + 2 * bitw3 f fuel (a / 2) (b / 2) (c / 2)

def md5F (b c d : Nat) : Nat := bitw3 (fun x y z => (x && y) || (!x && z)) 32 b c d

def md5G (b c d : Nat) : Nat := bitw3 (fun x y z => (x && z) || (y && !z)) 32 b c d

def md5H (b c d : Nat) : Nat := bitw3 (fun x y z => (x != y) != z) 32 b c d

def md5I (b c d : Nat) : Nat := bitw3 (fun x y z => y != (x || !z)) 32 b c d

def rotl32 (x c : Nat) : Nat := (x * 2 ^ c + x / 2 ^ (32 - c)) % 4294967296

def md5K : List Nat :=
  [0xd76aa478, 0xe8c7b756, 0x242070db, 0xc1bdceee,
   0xf57c0faf, 0x4787c62a, 0xa8304613, 0xfd469501,
   0x698098d8, 0x8b44f7af, 0xffff5bb1, 0x895cd7be,
   0x6b901122, 0xfd987193, 0xa679438e, 0x49b40821,
   0xf61e2562, 0xc040b340, 0x265e5a51, 0xe9b6c7aa,
   0xd62f105d, 0x02441453, 0xd8a1e681, 0xe7d3fbc8,
   0x21e1cde6, 0xc33707d6, 0xf4d50d87, 0x455a14ed,
   0xa9e3e905, 0xfcefa3f8, 0x676f02d9, 0x8d2a4c8a,
   0xfffa3942, 0x8771f681, 0x6d9d6122, 0xfde5380c,
   0xa4beea44, 0x4bdecfa9, 0xf6bb4b60, 0xbebfbc70,
   0x289b7ec6, 0xeaa127fa, 0xd4ef3085, 0x04881d05,
   0xd9d4d039, 0xe6db99e5, 0x1fa27cf8, 0xc4ac5665,
   0xf4292244, 0x432aff97, 0xab9423a7, 0xfc93a039,
   0x655b59c3, 0x8f0ccc92, 0xffeff47d, 0x85845dd1,
   0x6fa87e4f, 0xfe2ce6e0, 0xa3014314, 0x4e0811a1,
   0xf7537e82, 0xbd3af235, 0x2ad7d2bb, 0xeb86d391]

def md5S : List Nat :=
  [7, 12, 17, 22, 7, 12, 17, 22, 7, 12, 17, 22, 7, 12, 17, 22,
   5, 9, 14, 20, 5, 9, 14, 20, 5, 9, 14, 20, 5, 9, 14, 20,
   4, 11, 16, 23, 4, 11, 16, 23, 4, 11, 16, 23, 4, 11, 16, 23,
   6, 10, 15, 21, 6, 10, 15, 21, 6, 10, 15, 21, 6, 10, 15, 21]

def leBytes : Nat → Nat → List Nat
  | 0, _ => []
  | k+1, n => n % 256 :: leBytes k (n / 256)

def words4 : List Nat → List Nat
  | b0 :: b1 :: b2 :: b3 :: rest => (b0 + 256 * (b1 + 256 * (b2 + 256 * b3))) :: words4 rest
  | _ => []

def chunksGo : Nat → List Nat → List (List Nat)
  | 0, _ => []
  | _, [] => []
  | fuel+1, l => l.take 64 :: chunksGo fuel (l.drop 64)

def chunks64 (l : List Nat) : List (List Nat) := chunksGo l.length l

def md5pad (msg : List Nat) : List Nat :=
  msg ++ 128 :: List.replicate ((64 + 56 - (msg.length + 1) % 64) % 64) 0
      ++ leBytes 8 (msg.length * 8)

def md5step (M : List Nat) (i : Nat) (st : Nat × Nat × Nat × Nat) :
    Nat × Nat × Nat × Nat :=
  let a := st.1
  let b := st.2.1
  let c := st.2.2.1
  let d := st.2.2.2
  let fg :=
    if i < 16 then (md5F b c d, i)
    else if i < 32 then (md5G b c d, (5 * i + 1) % 16)
    else if i < 48 then (md5H b c d, (3 * i + 5) % 16)
    else (md5I b c d, (7 * i) % 16)
  let t := (fg.1 + a + md5K.getD i 0 + M.getD fg.2 0) % 4294967296
  (d, (b + rotl32 t (md5S.getD i 0)) % 4294967296, b, c)

def md5loop (M : List Nat) : Nat → Nat → (Nat × Nat × Nat × Nat) → Nat × Nat × Nat × Nat
  | 0, _, st => st
  | fuel+1, i, st => md5loop M fuel (i + 1) (md5step M i st)

def md5chunk (st : Nat × Nat × Nat × Nat) (chunk : List Nat) : Nat × Nat × Nat × Nat :=
  let r := md5loop (words4 chunk) 64 0 st
  ((st.1 + r.1) % 4294967296, (st.2.1 + r.2.1) % 4294967296,
   (st.2.2.1 + r.2.2.1) % 4294967296, (st.2.2.2 + r.2.2.2) % 4294967296)

def hexChars : List Char := "0123456789abcdef".data

def byteHex (b : Nat) : List Char := [hexChars.getD (b / 16 % 16) '0', hexChars.getD (b % 16) '0']

def bytesToHex (l : List Nat) : String := String.mk (l.foldr (fun b acc => byteHex b ++ acc) [])

/-- Lowercase hexadecimal MD5 digest of a byte list, as Go's
`hex.EncodeToString(md5.Sum(data))` produces it. -/
def md5hex (msg : List Nat) : String :=
  let st := (chunks64 (md5pad msg)).foldl md5chunk (0x67452301, 0xefcdab89, 0x98badcfe, 0x10325476)
  bytesToHex (leBytes 4 st.1 ++ leBytes 4 st.2.1 ++ leBytes 4 st.2.2.1 ++ leBytes 4 st.2.2.2)

def asciiBytes (s : String) : List Nat := s.data.map Char.toNat

/-! ## Models of the Go standard library used by the deployer

These definitions model the documented behaviour of Go's `strings`,
`mime` and `net/http` packages, which the repository calls but does not
define. -/

/-- Split a character list at the first occurrence of `c`, when present. -/
def splitFirstChar (c : Char) : List Char → Option (List Char × List Char)
  | [] => none
  | x :: rest =>
    if x = c then some ([], rest)
    else (splitFirstChar c rest).map (fun p => (x :: p.1, p.2))

/-- Go `strings.SplitN(s, sep, 2)` for a one-character separator: at most
two parts, split at the first occurrence of `sep`. -/
def goSplitN2 (s : String) (sep : Char) : List String :=
  match splitFirstChar sep s.data with
  | none => [s]
  | some (a, b) => [String.mk a, String.mk b]

/-- Go `fmt.Sprintf("%s", parts)` for a string slice: elements joined by
spaces inside square brackets. -/
def goSliceFormat (parts : List String) : String :=
  "[" ++ String.intercalate " " parts ++ "]"

/-- Go `strings.Trim(s, "\"")`: strip all leading and trailing quote runes. -/
def goTrimQuotes (s : String) : String :=
  String.mk (((s.data.dropWhile (· = '"')).reverse.dropWhile (· = '"')).reverse)

def tspecials : List Char :=
  ['(', ')', '<', '>', '@', ',', ';', ':', '\\', '\"', '/', '[', ']', '?', '=']

/-- MIME token character per Go `mime.isTokenChar`: printable ASCII that is
not a tspecial. -/
def isTokenChar (c : Char) : Bool :=
  c.toNat > 0x20 && c.toNat < 0x7F && !(tspecials.contains c)

def isSpaceChar (c : Char) : Bool := c = ' ' || c = '\t' || c = '\n' || c = '\r'

def toLowerChar (c : Char) : Char :=
  if 'A' ≤ c ∧ c ≤ 'Z' then Char.ofNat (c.toNat + 32) else c

/-- The media type of a MIME type string, per Go `mime.ParseMediaType`
restricted to the leading type token: text before any parameter, trimmed,
lowercased, and required to be of the form token-slash-token. -/
def parseMediaTypeBase (v : String) : Except String String :=
  let base := (((v.data.takeWhile (· ≠ ';')).dropWhile isSpaceChar).reverse.dropWhile
      isSpaceChar).reverse.map toLowerChar
  match splitFirstChar '/' base with
  | none => Except.error "mime: expected slash after first token"
  | some (t, s) =>
    if t ≠ [] && s ≠ [] && t.all isTokenChar && s.all isTokenChar then
      Except.ok (String.mk base)
    else Except.error "mime: invalid media type"

/-- Go `mime` package built-in extension table (`builtinTypesLower`). -/
def builtinTypesLower : List (String × String) :=
  [(".avif", "image/avif"), (".css", "text/css; charset=utf-8"),
   (".gif", "image/gif"), (".htm", "text/html; charset=utf-8"),
   (".html", "text/html; charset=utf-8"), (".jpeg", "image/jpeg"),
   (".jpg", "image/jpeg"), (".js", "text/javascript; charset=utf-8"),
   (".json", "application/json"), (".mjs", "text/javascript; charset=utf-8"),
   (".pdf", "application/pdf"), (".png", "image/png"),
   (".svg", "image/svg+xml"), (".wasm", "application/wasm"),
   (".webp", "image/webp"), (".xml", "text/xml; charset=utf-8")]

/-- Go `mime.ExtensionsByType(typ)`: parses `typ` as a MIME type and returns
the extensions known to map to it (the empty list models Go's nil slice). -/
def extensionsByType (typ : String) : Except String (List String) := do
  let just ← parseMediaTypeBase typ
  Except.ok ((builtinTypesLower.filter
    (fun p => (parseMediaTypeBase p.2).toOption = some just)).map (·.1))

/-- Whitespace byte per Go `net/http` sniffing. -/
def isWS (b : Nat) : Bool := b = 9 || b = 10 || b = 12 || b = 13 || b = 32

/-- Binary data byte per Go `net/http` sniffing (`textSig`). -/
def isBinaryByte (b : Nat) : Bool :=
  b ≤ 8 || b = 11 || (14 ≤ b && b ≤ 26) || (28 ≤ b && b ≤ 31)

/-- Clear ASCII bit 0x20 (uppercases a lowercase letter byte). -/
def stripBit5 (b : Nat) : Nat := if b / 32 % 2 = 1 then b - 32 else b

/-- Go `net/http` `htmlSig.match`: case-insensitive tag match that must be
followed by a space or a closing angle bracket. -/
def matchHtmlSig : List Char → List Nat → Bool
  | [], rest =>
    match rest with
    | b :: _ => b == 32 || b == 62
    | [] => false
  | c :: cs, b :: bs =>
    (if 'A' ≤ c ∧ c ≤ 'Z' then stripBit5 b else b) == c.toNat && matchHtmlSig cs bs
  | _ :: _, [] => false

def htmlSigs : List String :=
  ["<!DOCTYPE HTML", "<HTML", "<HEAD", "<SCRIPT", "<IFRAME", "<H1", "<DIV",
   "<FONT", "<TABLE", "<A", "<STYLE", "<TITLE", "<B", "<BODY", "<BR", "<P", "<!--"]

/-- Exact byte-prefix signatures from Go `net/http` sniffing (the ones
relevant to this development). -/
def sniffSigs : List (List Nat × String) :=
  [([0x25, 0x50, 0x44, 0x46, 0x2D], "application/pdf"),
   ([0x25, 0x21, 0x50, 0x53, 0x2D, 0x41, 0x64, 0x6F, 0x62, 0x65, 0x2D], "application/postscript"),
   ([0x89, 0x50, 0x4E, 0x47, 0x0D, 0x0A, 0x1A, 0x0A], "image/png"),
   ([0x47, 0x49, 0x46, 0x38, 0x37, 0x61], "image/gif"),
   ([0x47, 0x49, 0x46, 0x38, 0x39, 0x61], "image/gif"),
   ([0xFF, 0xD8, 0xFF], "image/jpeg"),
   ([0x50, 0x4B, 0x03, 0x04], "application/zip"),
   ([0x1F, 0x8B, 0x08], "application/x-gzip"),
   ([0x00, 0x61, 0x73, 0x6D], "application/wasm")]

/-- Go `http.DetectContentType`: at most 512 bytes considered; HTML tag
signatures after leading whitespace, then exact signatures, then plain text
when no binary byte occurs, otherwise the octet-stream default. -/
def detectContentType (content : List Nat) : String :=
  let data := content.take 512
  let trimmed := data.dropWhile isWS
  match htmlSigs.find? (fun s => matchHtmlSig s.data trimmed) with
  | some _ => "text/html; charset=utf-8"
  | none =>
    match sniffSigs.find? (fun p => p.1.isPrefixOf data) with
    | some p => p.2
    | none =>
      if trimmed.all (fun b => !isBinaryByte b) then "text/plain; charset=utf-8"
      else "application/octet-stream"

/-! ## The S3 service model

A deterministic model of the storage service: object contents keyed by
bucket and key (plus a separate version index for versioned reads), an
upload-failure oracle standing for the transport, and paginated listing. -/

/-- An archive entry: a name and a byte payload (Go reads each zipped file
fully into memory before hashing or uploading). -/
structure ZipEntry where
  name : String
  content : List Nat
deriving DecidableEq

/-- A stored S3 object: either bytes that parse as a ZIP archive with the
given entries, or a plain blob with a content type (byte-level ZIP
serialization is not modelled). -/
inductive S3Object where
  | zipObj (entries : List ZipEntry)
  | blob (content : List Nat) (contentType : String)
deriving DecidableEq

/-- The storage service contents: latest objects by bucket and key, and
version-pinned objects by bucket, key and version id. -/
structure S3State where
  objects : List ((String × String) × S3Object)
  versions : List ((String × String × String) × S3Object)
deriving DecidableEq

/-- Transport behaviour: `putFail bucket key` is the error a PutObject of
that key would fail with, and `pageSize` is the maximum number of objects
one ListObjectsV2 response carries. -/
structure S3Env where
  putFail : String → String → Option String
  pageSize : Nat

/-- The GetObject request as the Go code builds it. -/
structure GetObjectInput where
  Bucket : String
  Key : String
  VersionId : Option String
deriving DecidableEq

/-- The request construction in `getDeploymentArtifact`: when `version` is
non-nil the Go code builds the input WITHOUT a VersionId field, and only in
the nil branch does it attach `VersionId: version` (which is then nil). -/
def mkGetObjectInput (sourceBucket key : String) (version : Option String) : GetObjectInput :=
  if version.isSome then
    { Bucket := sourceBucket, Key := key, VersionId := none }
  else
    { Bucket := sourceBucket, Key := key, VersionId := version }

/-- The service's GetObject: a version-pinned read when the request carries
a VersionId, otherwise the bucket's current latest object. -/
def s3GetObject (st : S3State) (inp : GetObjectInput) : Option S3Object :=
  match inp.VersionId with
  | some v => alookup st.versions (inp.Bucket, inp.Key, v)
  | none => alookup st.objects (inp.Bucket, inp.Key)

/-- The service's PutObject: store the blob under (bucket, key), replacing
any existing latest object. -/
def s3PutObject (st : S3State) (bucket key : String) (body : List Nat)
    (contentType : String) : S3State :=
  { st with objects := upsert st.objects (bucket, key) (S3Object.blob body contentType) }

/-- The ETag the service reports for an object: the quoted MD5 of the bytes
for a plain put. -/
def etagOf : S3Object → String
  | S3Object.blob c _ => "\"" ++ md5hex c ++ "\""
  | S3Object.zipObj _ => "\"zip-archive-etag\""

/-- The latest objects of one bucket, in store order. -/
def bucketObjects (st : S3State) (bucket : String) : List (String × S3Object) :=
  st.objects.filterMap (fun p => if p.1.1 = bucket then some (p.1.2, p.2) else none)

structure ListResult where
  contents : List (String × String)
  isTruncated : Bool
  nextContinuationToken : Option Nat
deriving DecidableEq

/-- The service's ListObjectsV2: one page of at most `pageSize` objects
starting at the continuation token, with a truncation marker and the next
token when more objects remain. -/
def listObjectsV2 (env : S3Env) (st : S3State) (bucket : String)
    (token : Option Nat) : ListResult :=
  let objs := bucketObjects st bucket
  let start := token.getD 0
  let next := start + env.pageSize
  { contents := ((objs.drop start).take env.pageSize).map (fun p => (p.1, etagOf p.2)),
    isTruncated := decide (next < objs.length),
    nextContinuationToken := if next < objs.length then some next else none }

/-! ## The deployer package (embedding of `deployer` in the Go source)

`DeployedFiles` is Go's `map[string]string` of file keys to file hashes,
as an association list written with `upsert`. Errors are the `fmt.Errorf`
wrappings the Go functions build, by kind. -/

abbrev DeployedFiles := List (String × String)

inductive DeployErr where
  | downloadErr (inner : String)
  | unzipErr (inner : String)
  | uploadErr (inner : String)
deriving DecidableEq

/-- The rendered Go error string of each wrapped error. -/
def DeployErr.message : DeployErr → String
  | DeployErr.downloadErr inner => "failed to download object from S3: " ++ inner
  | DeployErr.unzipErr inner => "failed to unzip file: " ++ inner
  | DeployErr.uploadErr inner => "failed to upload object to S3: " ++ inner

/-- Does the pattern occur at the head of the character list? -/
def prefixAt : List Char → List Char → Bool
  | p :: ps, c :: cs => p == c && prefixAt ps cs
  | needle, _ => needle.isEmpty

/-- Does the needle occur anywhere in the haystack? -/
def containsSub : List Char → List Char → Bool
  | [], needle => needle.isEmpty
  | h :: t, needle => prefixAt needle (h :: t) || containsSub t needle

/-- Does `s` contain `sub` as a substring? -/
def mentions (s sub : String) : Bool := containsSub s.data sub.data

/-- `Deployment.getDeploymentArtifact`: build the GetObject input (with the
source code's version handling), fetch, and parse the body as a ZIP.
Absent objects fail the download; non-ZIP bodies fail unzipping. -/
def getDeploymentArtifact (st : S3State) (SourceBucket key : String)
    (version : Option String) : Except DeployErr (List ZipEntry) :=
  match s3GetObject st (mkGetObjectInput SourceBucket key version) with
  | none => Except.error (DeployErr.downloadErr "NoSuchKey")
  | some (S3Object.zipObj entries) => Except.ok entries
  | some (S3Object.blob _ _) => Except.error (DeployErr.unzipErr "zip: not a valid zip file")

/-- `Deployment.getDeploymentArtifactFileHashes`: hash every entry's
content and record it under the entry's name (entries carry their bytes,
so the read-failure path of the Go loop cannot trigger in the model). -/
def getDeploymentArtifactFileHashes (entries : List ZipEntry) : DeployedFiles :=
  entries.foldl (fun hashes f => upsert hashes f.name (md5hex f.content)) []

/-- The content-type resolution inside `uploadDeploymentArtifactFiles`:
`mime.ExtensionsByType(file.Name)` and, when that errors or yields nil,
`http.DetectContentType(fileContent)`; otherwise the first extension. -/
def resolveContentType (name : String) (content : List Nat) : String :=
  match extensionsByType name with
  | Except.error _ => detectContentType content
  | Except.ok exts => if exts.isEmpty then detectContentType content else exts.headD ""

/-- `Deployment.uploadDeploymentArtifactFiles`: upload each entry in order
to the target bucket under the entry's name with the resolved content
type; stop at the first failing put, keeping the puts already made. -/
def uploadDeploymentArtifactFiles (env : S3Env) (TargetBucket : String) :
    List ZipEntry → S3State → S3State × Option DeployErr
  | [], st => (st, none)
  | f :: rest, st =>
    let contentType := resolveContentType f.name f.content
    match env.putFail TargetBucket f.name with
    | some msg => (st, some (DeployErr.uploadErr msg))
    | none =>
      uploadDeploymentArtifactFiles env TargetBucket rest
        (s3PutObject st TargetBucket f.name f.content contentType)

/-- `Deployment.Deploy`: fetch the artifact, upload every entry, then hash
the same archive and return the hashes; the state reflects every put made
before any failure. -/
def Deploy (env : S3Env) (st : S3State) (SourceBucket TargetBucket key : String)
    (version : Option String) : Except DeployErr DeployedFiles × S3State :=
  match getDeploymentArtifact st SourceBucket key version with
  | Except.error e => (Except.error e, st)
  | Except.ok entries =>
    match uploadDeploymentArtifactFiles env TargetBucket entries st with
    | (st', some e) => (Except.error e, st')
    | (st', none) => (Except.ok (getDeploymentArtifactFileHashes entries), st')

/-- `Deployment.HashesForArtifact`: fetch the artifact and hash its
entries, without uploading. -/
def HashesForArtifact (st : S3State) (SourceBucket key : String)
    (version : Option String) : Except DeployErr DeployedFiles :=
  match getDeploymentArtifact st SourceBucket key version with
  | Except.error e => Except.error e
  | Except.ok entries => Except.ok (getDeploymentArtifactFileHashes entries)

/-- `Deployment.HashesForDeployedFiles`: a single ListObjectsV2 call on the
target bucket (no continuation-token loop in the source), recording each
listed key with its quote-trimmed ETag. -/
def HashesForDeployedFiles (env : S3Env) (st : S3State) (TargetBucket : String) :
    DeployedFiles :=
  let resp := listObjectsV2 env st TargetBucket none
  resp.contents.foldl (fun found p => upsert found p.1 (goTrimQuotes p.2)) []

/-! ## The provider resource (embedding of `internal/provider/deployment_resource.go`) -/

structure DeploymentResourceModel where
  source : String
  sourceVersion : String
  target : String
deriving DecidableEq

/-- `DeploymentResource.runDeployment`: split the source locator on the
first separator, require exactly two parts, then deploy with a nil
version; the returned hashes are discarded. -/
def runDeployment (env : S3Env) (st : S3State) (data : DeploymentResourceModel) :
    Option String × S3State :=
  match goSplitN2 data.source '/' with
  | [sourceBucket, sourceKey] =>
    (match Deploy env st sourceBucket data.target sourceKey none with
     | (Except.error e, st') => (some ("Error during deployment: " ++ e.message), st')
     | (Except.ok _, st') => (none, st'))
  | parts => (some ("invalid source format: " ++ goSliceFormat parts), st)

/-- What `Read` writes into its response: diagnostics (title and detail
pairs) and the state it sets, `none` when it returns without setting one. -/
structure ReadResponse where
  diagnostics : List (String × String)
  newState : Option DeploymentResourceModel
deriving DecidableEq

/-- `DeploymentResource.Read`: split the locator (adding a diagnostic on a
bad format), recompute the source artifact hashes, and on success set the
prior state back unchanged; a hash failure returns with no diagnostic and
no state written, and the computed hashes are discarded either way. -/
def readResource (st : S3State) (state : DeploymentResourceModel) : ReadResponse :=
  match goSplitN2 state.source '/' with
  | [sourceBucket, sourceKey] =>
    (match HashesForArtifact st sourceBucket sourceKey none with
     | Except.error _ => { diagnostics := [], newState := none }
     | Except.ok _ => { diagnostics := [], newState := some state })
  | parts =>
    { diagnostics := [("Could not read source format", "invalid source format: " ++ goSliceFormat parts)],
      newState := none }

/-- The last archive entry carrying a given name, if any (what a
left-to-right sequence of per-entry writes leaves behind). -/
def lastEntryNamed (l : List ZipEntry) (n : String) : Option ZipEntry :=
  finalVal ZipEntry.name (fun e => e) l n

/-- The state reached by uploading every entry in order (all puts
succeeding). -/
def putAll (TargetBucket : String) : List ZipEntry → S3State → S3State
  | [], st => st
  | e :: rest, st =>
    putAll TargetBucket rest
      (s3PutObject st TargetBucket e.name e.content (resolveContentType e.name e.content))

/-! ## Concrete stores and environments used by the claim instances -/

def noFailEnv : S3Env := { putFail := fun _ _ => none, pageSize := 1000 }

def stC1 : S3State :=
  { objects := [(("release-bucket", "app.zip"), S3Object.zipObj [⟨"latest.txt", [76]⟩])],
    versions := [(("release-bucket", "app.zip", "v1"), S3Object.zipObj [⟨"pinned.txt", [80]⟩])] }

def priorState : DeploymentResourceModel :=
  { source := "release-bucket/app.zip", sourceVersion := "v1", target := "site-bucket" }

def stSourceA : S3State :=
  { objects := [(("release-bucket", "app.zip"),
      S3Object.zipObj [⟨"a", asciiBytes "A"⟩, ⟨"b", asciiBytes "B"⟩])],
    versions := [] }

def stSourceB : S3State :=
  { objects := [(("release-bucket", "app.zip"),
      S3Object.zipObj [⟨"a", asciiBytes "A"⟩])],
    versions := [] }

def cssBody : List Nat := asciiBytes "h1 color: red;"

def envOnePage : S3Env := { putFail := fun _ _ => none, pageSize := 1 }

def stTwoObjects : S3State :=
  { objects := [(("site-bucket", "a.txt"), S3Object.blob [65] "text/plain; charset=utf-8"),
                (("site-bucket", "b.txt"), S3Object.blob [66] "text/plain; charset=utf-8")],
    versions := [] }

def preC5 : List ZipEntry := [⟨"file1.txt", asciiBytes "one"⟩, ⟨"file2.txt", asciiBytes "two"⟩]

def fC5 : ZipEntry := ⟨"file3.txt", asciiBytes "three"⟩

def postC5 : List ZipEntry := [⟨"file4.txt", asciiBytes "four"⟩, ⟨"file5.txt", asciiBytes "five"⟩]

def stC5 : S3State :=
  { objects := [(("release-bucket", "app.zip"), S3Object.zipObj (preC5 ++ fC5 :: postC5))],
    versions := [] }

def envC5 : S3Env :=
  { putFail := fun _ k => if k = "file3.txt" then some "simulated transport error" else none,
    pageSize := 1000 }

def entriesW : List ZipEntry := [⟨"file1.txt", asciiBytes "A"⟩, ⟨"file2.js", asciiBytes "B"⟩]

def stW : S3State :=
  { objects := [(("release-bucket", "app.zip"), S3Object.zipObj entriesW)], versions := [] }

def entriesDup : List ZipEntry :=
  [⟨"index.html", asciiBytes "old"⟩, ⟨"index.html", asciiBytes "new"⟩]

def stDup : S3State :=
  { objects := [(("release-bucket", "app.zip"), S3Object.zipObj entriesDup)], versions := [] }

def stEmpty : S3State := { objects := [], versions := [] }

def stEmptyBucketName : S3State :=
  { objects := [(("", "key"), S3Object.zipObj [⟨"x.txt", [65]⟩])], versions := [] }

def dataEmptyBucket : DeploymentResourceModel :=
  { source := "/key", sourceVersion := "v", target := "site-bucket" }

def dataNoSep : DeploymentResourceModel :=
  { source := "not-a-valid-locator", sourceVersion := "v", target := "site-bucket" }

set_option maxRecDepth 1000000

/-! ## Map and fold lemmas -/

theorem alookup_upsert_self {κ α : Type} [DecidableEq κ] (m : List (κ × α)) (k : κ) (v : α) :
    alookup (upsert m k v) k = some v := by
  induction m with
  | nil => simp [upsert, alookup]
  | cons p rest ih =>
    by_cases h : p.1 = k
    · simp [upsert, h, alookup]
    · simp [upsert, h, alookup, ih]

theorem alookup_upsert_ne {κ α : Type} [DecidableEq κ] (m : List (κ × α)) (k k' : κ) (v : α)
    (h : k' ≠ k) : alookup (upsert m k v) k' = alookup m k' := by
  have hne : ¬k = k' := fun hh => h hh.symm
  induction m with
  | nil => simp [upsert, alookup, hne]
  | cons p rest ih =>
    by_cases hp : p.1 = k
    · simp [upsert, hp, alookup, hne]
    · by_cases hq : p.1 = k'
      · simp [upsert, hp, alookup, hq, h]
      · simp [upsert, hp, alookup, hq, ih]

theorem alookup_foldl_upsert {κ β α : Type} [DecidableEq κ] (kf : β → κ) (f : β → α) :
    ∀ (l : List β) (m : List (κ × α)) (k : κ),
      alookup (l.foldl (fun acc b => upsert acc (kf b) (f b)) m) k
        = match finalVal kf f l k with
          | some v => some v
          | none => alookup m k := by
  intro l
  induction l with
  | nil => intro m k; rfl
  | cons b rest ih =>
    intro m k
    rw [List.foldl_cons, ih]
    cases hr : finalVal kf f rest k with
    | some v => simp [finalVal, hr]
    | none =>
      simp only [finalVal, hr]
      by_cases hb : kf b = k
      · rw [hb]; simp [alookup_upsert_self]
      · have hkk : k ≠ kf b := fun hh => hb hh.symm
        simp [hb, alookup_upsert_ne m (kf b) k (f b) hkk]

theorem finalVal_map {κ β α : Type} [DecidableEq κ] (kf : β → κ) (f : β → α)
    (l : List β) (k : κ) :
    finalVal kf f l k = (finalVal kf (fun b => b) l k).map f := by
  induction l with
  | nil => rfl
  | cons b rest ih =>
    simp only [finalVal, ih]
    cases finalVal kf (fun b => b) rest k with
    | some v => rfl
    | none => by_cases hb : kf b = k <;> simp [hb]

theorem finalVal_isSome_iff {κ β : Type} [DecidableEq κ] (kf : β → κ) (l : List β) (k : κ) :
    (finalVal kf (fun b => b) l k).isSome ↔ k ∈ l.map kf := by
  induction l with
  | nil => simp [finalVal]
  | cons b rest ih =>
    simp only [finalVal, List.map_cons, List.mem_cons]
    cases hr : finalVal kf (fun b => b) rest k with
    | some v =>
      rw [hr] at ih
      simp only [Option.isSome_some, true_iff] at ih
      simp [ih]
    | none =>
      rw [hr] at ih
      simp only [Option.isSome_none, Bool.false_eq_true, false_iff] at ih
      by_cases hb : kf b = k
      · simp [hb]
      · simp only [hb, if_false, Option.isSome_none, Bool.false_eq_true, false_iff]
        intro hor
        rcases hor with hl | hrm
        · exact hb hl.symm
        · exact ih hrm

theorem finalVal_none_of_not_mem {κ β : Type} [DecidableEq κ] (kf : β → κ) (l : List β)
    (k : κ) (h : k ∉ l.map kf) : finalVal kf (fun b => b) l k = none := by
  cases hv : finalVal kf (fun b => b) l k with
  | none => rfl
  | some v =>
    exact absurd ((finalVal_isSome_iff kf l k).mp (by rw [hv]; rfl)) h

theorem finalVal_nodup_mem {κ β : Type} [DecidableEq κ] (kf : β → κ) :
    ∀ (l : List β) (b : β), (l.map kf).Nodup → b ∈ l →
      finalVal kf (fun x => x) l (kf b) = some b := by
  intro l
  induction l with
  | nil => intro b _ hb; cases hb
  | cons c rest ih =>
    intro b hnd hb
    rw [List.map_cons, List.nodup_cons] at hnd
    rcases List.mem_cons.mp hb with hbc | hbr
    · subst hbc
      have hnone : finalVal kf (fun x => x) rest (kf b) = none :=
        finalVal_none_of_not_mem kf rest (kf b) hnd.1
      simp [finalVal, hnone]
    · have hsome := ih b hnd.2 hbr
      simp [finalVal, hsome]

theorem putAll_objects (T : String) :
    ∀ (l : List ZipEntry) (st : S3State),
      (putAll T l st).objects
        = l.foldl (fun acc e => upsert acc (T, e.name)
            (S3Object.blob e.content (resolveContentType e.name e.content))) st.objects := by
  intro l
  induction l with
  | nil => intro st; rfl
  | cons e rest ih => intro st; simp [putAll, s3PutObject, ih]

theorem putAll_versions (T : String) :
    ∀ (l : List ZipEntry) (st : S3State), (putAll T l st).versions = st.versions := by
  intro l
  induction l with
  | nil => intro st; rfl
  | cons e rest ih => intro st; simp [putAll, s3PutObject, ih]

theorem uploads_ok (env : S3Env) (T : String) :
    ∀ (l : List ZipEntry) (st : S3State),
      (∀ e ∈ l, env.putFail T e.name = none) →
      uploadDeploymentArtifactFiles env T l st = (putAll T l st, none) := by
  intro l
  induction l with
  | nil => intro st _; rfl
  | cons e rest ih =>
    intro st h
    have he : env.putFail T e.name = none := h e (List.mem_cons_self e rest)
    simp only [uploadDeploymentArtifactFiles, he, putAll]
    exact ih _ (fun x hx => h x (List.mem_cons_of_mem e hx))

theorem uploads_fail (env : S3Env) (T : String) (f : ZipEntry) (m : String)
    (post : List ZipEntry) :
    ∀ (pre : List ZipEntry) (st : S3State),
      (∀ e ∈ pre, env.putFail T e.name = none) →
      env.putFail T f.name = some m →
      uploadDeploymentArtifactFiles env T (pre ++ f :: post) st
        = (putAll T pre st, some (DeployErr.uploadErr m)) := by
  intro pre
  induction pre with
  | nil =>
    intro st _ hf
    simp only [List.nil_append, uploadDeploymentArtifactFiles, hf, putAll]
  | cons e rest ih =>
    intro st hpre hf
    have he : env.putFail T e.name = none := hpre e (List.mem_cons_self e rest)
    simp only [List.cons_append, uploadDeploymentArtifactFiles, he, putAll]
    exact ih _ (fun x hx => hpre x (List.mem_cons_of_mem e hx)) hf

theorem mkGetObjectInput_versionId (b k : String) (v : Option String) :
    (mkGetObjectInput b k v).VersionId = none := by
  cases v <;> rfl

theorem s3GetObject_mk (st : S3State) (b k : String) (v : Option String) :
    s3GetObject st (mkGetObjectInput b k v) = alookup st.objects (b, k) := by
  cases v <;> rfl

theorem getDeploymentArtifact_ok_iff (st : S3State) (b k : String) (v : Option String)
    (es : List ZipEntry) :
    getDeploymentArtifact st b k v = Except.ok es
      ↔ alookup st.objects (b, k) = some (S3Object.zipObj es) := by
  unfold getDeploymentArtifact
  rw [s3GetObject_mk]
  cases hl : alookup st.objects (b, k) with
  | none => simp
  | some o => cases o <;> simp

theorem deploy_ok (env : S3Env) (st : S3State) (sB tB key : String) (v : Option String)
    (entries : List ZipEntry)
    (hfetch : getDeploymentArtifact st sB key v = Except.ok entries)
    (hok : ∀ e ∈ entries, env.putFail tB e.name = none) :
    Deploy env st sB tB key v
      = (Except.ok (getDeploymentArtifactFileHashes entries), putAll tB entries st) := by
  unfold Deploy
  rw [hfetch]
  simp only [uploads_ok env tB entries st hok]

theorem alookup_hashes (entries : List ZipEntry) (n : String) :
    alookup (getDeploymentArtifactFileHashes entries) n
      = (lastEntryNamed entries n).map (fun e => md5hex e.content) := by
  unfold getDeploymentArtifactFileHashes lastEntryNamed
  rw [alookup_foldl_upsert ZipEntry.name (fun e => md5hex e.content) entries [] n]
  rw [finalVal_map]
  cases finalVal ZipEntry.name (fun e => e) entries n <;> rfl

theorem finalVal_pair {α : Type} (T : String) (g : ZipEntry → α) (l : List ZipEntry)
    (b k : String) :
    finalVal (fun e => (T, e.name)) g l (b, k)
      = if b = T then finalVal ZipEntry.name g l k else none := by
  induction l with
  | nil => by_cases hb : b = T <;> simp [finalVal, hb]
  | cons e rest ih =>
    simp only [finalVal, ih]
    by_cases hb : b = T
    · subst hb
      cases finalVal ZipEntry.name g rest k with
      | some v => simp
      | none => simp [Prod.ext_iff]
    · simp only [hb, if_false]
      have : ¬(T, e.name) = (b, k) := by
        intro hh
        exact hb ((Prod.ext_iff.mp hh).1.symm)
      simp [this]

theorem alookup_putAll_objects (T : String) (l : List ZipEntry) (st : S3State)
    (b k : String) :
    alookup (putAll T l st).objects (b, k)
      = if b = T then
          match lastEntryNamed l k with
          | some e => some (S3Object.blob e.content (resolveContentType e.name e.content))
          | none => alookup st.objects (b, k)
        else alookup st.objects (b, k) := by
  rw [putAll_objects]
  rw [alookup_foldl_upsert (fun e => ((T, e.name) : String × String))
        (fun e => S3Object.blob e.content (resolveContentType e.name e.content)) l st.objects (b, k)]
  rw [finalVal_pair]
  by_cases hb : b = T
  · subst hb
    simp only [if_pos rfl]
    rw [finalVal_map]
    unfold lastEntryNamed
    cases finalVal ZipEntry.name (fun e => e) l k <;> rfl
  · simp [hb]

theorem finalVal_key {κ β : Type} [DecidableEq κ] (kf : β → κ) :
    ∀ (l : List β) (k : κ) (b : β), finalVal kf (fun x => x) l k = some b → kf b = k := by
  intro l
  induction l with
  | nil => intro k b h; cases h
  | cons c rest ih =>
    intro k b h
    simp only [finalVal] at h
    cases hr : finalVal kf (fun x => x) rest k with
    | some v =>
      rw [hr] at h
      have hv : v = b := Option.some.inj h
      exact hv ▸ ih k v hr
    | none =>
      rw [hr] at h
      by_cases hc : kf c = k
      · rw [if_pos hc] at h
        have : c = b := Option.some.inj h
        exact this ▸ hc
      · rw [if_neg hc] at h
        cases h

/-- Claim C1: the spec requires a present version token to pin the retrieval
to exactly that version. The code inverts the branches: whenever the version
is non-nil it builds the GetObject input WITHOUT a VersionId, so the fetch
always resolves to the bucket's latest object. At a store whose latest
object under the key differs from the object stored as version v1, fetching
with version v1 returns the latest entries, not the pinned ones. -/
theorem c1_version_never_pinned :
    (mkGetObjectInput "release-bucket" "app.zip" (some "v1")).VersionId = none
    ∧ getDeploymentArtifact stC1 "release-bucket" "app.zip" (some "v1")
        = Except.ok [⟨"latest.txt", [76]⟩]
    ∧ alookup stC1.versions ("release-bucket", "app.zip", "v1")
        = some (S3Object.zipObj [⟨"pinned.txt", [80]⟩]) := by decide

/-- Claim C2: the spec describes a per-name drift mapping over the prior
FingerprintSet. The resource state carries no fingerprints at all, and Read
discards the freshly computed source hashes: with the same prior state,
Read returns the prior state unchanged and reports nothing, whether the
source archive holds entries a and b or has dropped b — no changed or
absent fingerprint is ever surfaced. -/
theorem c2_read_performs_no_drift_mapping :
    readResource stSourceA priorState = { diagnostics := [], newState := some priorState }
    ∧ readResource stSourceB priorState = { diagnostics := [], newState := some priorState } := by
  decide

/-- Claim C3: the spec requires the entry name's extension to be looked up
in the MIME table first, with sniffing only as fallback. The code calls
`mime.ExtensionsByType(file.Name)`, which maps a MIME TYPE to extensions:
an entry name such as style.css does not parse as a MIME type, the lookup
errors, and the content type is always sniffed — style.css with a CSS text
payload is tagged text/plain, not the CSS MIME type. -/
theorem c3_extension_table_never_used :
    extensionsByType "style.css" = Except.error "mime: expected slash after first token"
    ∧ extensionsByType "text/css" = Except.ok [".css"]
    ∧ resolveContentType "style.css" cssBody = "text/plain; charset=utf-8"
    ∧ resolveContentType "style.css" cssBody ≠ "text/css; charset=utf-8" := by decide

/-- Claim C4: the spec requires the target-bucket digest to follow
continuation tokens until exhausted. The code issues a single ListObjectsV2
call and ignores IsTruncated and NextContinuationToken: with a page size of
one and two objects in the bucket, the listing is truncated and the second
object receives no fingerprint. -/
theorem c4_listing_stops_after_one_page :
    (alookup stTwoObjects.objects ("site-bucket", "b.txt")).isSome = true
    ∧ (listObjectsV2 envOnePage stTwoObjects "site-bucket" none).isTruncated = true
    ∧ alookup (HashesForDeployedFiles envOnePage stTwoObjects "site-bucket") "b.txt" = none
    ∧ alookup (HashesForDeployedFiles envOnePage stTwoObjects "site-bucket") "a.txt"
        = some (md5hex [65]) := by decide

/-- Claim C7: the spec requires any fetch or digest failure during the
drift check to surface the underlying error. When the source object is
absent the hash computation fails, yet Read returns with an empty
diagnostics list and no state written — the error is silently dropped. -/
theorem c7_read_error_swallowed :
    HashesForArtifact stEmpty "release-bucket" "app.zip" none
      = Except.error (DeployErr.downloadErr "NoSuchKey")
    ∧ readResource stEmpty priorState = { diagnostics := [], newState := none } := by decide

/-- Claim C5 counterexample: the claim says the UploadError identifies the
failing entry. Uploading a five-entry archive whose third entry fails with
a simulated transport error, Deploy stops and returns the upload error —
but the rendered error message is exactly the wrap of the inner transport
error and does not mention the failing entry's name file3.txt anywhere,
while entries one and two are in the bucket and entries four and five are
not. -/
theorem c5_error_does_not_name_entry :
    (Deploy envC5 stC5 "release-bucket" "site-bucket" "app.zip" none).1
      = Except.error (DeployErr.uploadErr "simulated transport error")
    ∧ (DeployErr.uploadErr "simulated transport error").message
        = "failed to upload object to S3: simulated transport error"
    ∧ mentions (DeployErr.uploadErr "simulated transport error").message "file3.txt" = false
    ∧ (alookup (Deploy envC5 stC5 "release-bucket" "site-bucket" "app.zip" none).2.objects
        ("site-bucket", "file1.txt")).isSome = true
    ∧ (alookup (Deploy envC5 stC5 "release-bucket" "site-bucket" "app.zip" none).2.objects
        ("site-bucket", "file2.txt")).isSome = true
    ∧ alookup (Deploy envC5 stC5 "release-bucket" "site-bucket" "app.zip" none).2.objects
        ("site-bucket", "file4.txt") = none
    ∧ alookup (Deploy envC5 stC5 "release-bucket" "site-bucket" "app.zip" none).2.objects
        ("site-bucket", "file5.txt") = none := by decide

/-- Claim C5 (amended): when the upload of entry `f` fails (after the
entries of `pre`, all of which upload successfully), Deploy stops with an
UploadError wrapping the storage error — without naming the entry — and
the final state is exactly the initial state with the `pre` entries
uploaded: earlier uploads remain, later entries are never uploaded. -/
theorem c5_partial_failure (env : S3Env) (st : S3State) (sB tB key : String)
    (v : Option String) (pre : List ZipEntry) (f : ZipEntry) (post : List ZipEntry)
    (m : String)
    (hfetch : getDeploymentArtifact st sB key v = Except.ok (pre ++ f :: post))
    (hpre : ∀ e ∈ pre, env.putFail tB e.name = none)
    (hf : env.putFail tB f.name = some m) :
    Deploy env st sB tB key v = (Except.error (DeployErr.uploadErr m), putAll tB pre st) := by
  unfold Deploy
  rw [hfetch]
  simp only [uploads_fail env tB f m post pre st hpre hf]

theorem c5_partial_failure_witness :
    (getDeploymentArtifact stC5 "release-bucket" "app.zip" none
        = Except.ok (preC5 ++ fC5 :: postC5)
      ∧ (∀ e ∈ preC5, envC5.putFail "site-bucket" e.name = none)
      ∧ envC5.putFail "site-bucket" fC5.name = some "simulated transport error")
    ∧ Deploy envC5 stC5 "release-bucket" "site-bucket" "app.zip" none
        = (Except.error (DeployErr.uploadErr "simulated transport error"),
           putAll "site-bucket" preC5 stC5) :=
  ⟨⟨by decide, by decide, by decide⟩,
   c5_partial_failure envC5 stC5 "release-bucket" "site-bucket" "app.zip" none preC5 fC5
     postC5 "simulated transport error" (by decide) (by decide) (by decide)⟩

/-- Claim C6: when the fetch succeeds and every upload succeeds, Deploy
returns the FingerprintSet of the fetched archive: every entry's name maps
to the lowercase-hex MD5 of that entry's payload, a name is present in the
set exactly when it names an archive entry, and the target bucket holds
each entry's bytes under a key equal to the entry's name. Entry names are
assumed unique, the archive invariant the spec's data model states. -/
theorem c6_success_fingerprints (env : S3Env) (st : S3State) (sB tB key : String)
    (v : Option String) (entries : List ZipEntry)
    (hfetch : getDeploymentArtifact st sB key v = Except.ok entries)
    (hok : ∀ e ∈ entries, env.putFail tB e.name = none)
    (hnodup : (entries.map ZipEntry.name).Nodup) :
    (Deploy env st sB tB key v).1 = Except.ok (getDeploymentArtifactFileHashes entries)
    ∧ (∀ e ∈ entries,
        alookup (getDeploymentArtifactFileHashes entries) e.name = some (md5hex e.content))
    ∧ (∀ n, (alookup (getDeploymentArtifactFileHashes entries) n).isSome
        ↔ n ∈ entries.map ZipEntry.name)
    ∧ (∀ e ∈ entries,
        alookup (Deploy env st sB tB key v).2.objects (tB, e.name)
          = some (S3Object.blob e.content (resolveContentType e.name e.content))) := by
  have hd := deploy_ok env st sB tB key v entries hfetch hok
  refine ⟨by rw [hd], ?_, ?_, ?_⟩
  · intro e he
    rw [alookup_hashes]
    unfold lastEntryNamed
    rw [finalVal_nodup_mem ZipEntry.name entries e hnodup he]
    rfl
  · intro n
    rw [alookup_hashes]
    unfold lastEntryNamed
    rw [Option.isSome_map']
    exact finalVal_isSome_iff ZipEntry.name entries n
  · intro e he
    rw [hd]
    show alookup (putAll tB entries st).objects (tB, e.name) = _
    rw [alookup_putAll_objects]
    have hl : lastEntryNamed entries e.name = some e :=
      finalVal_nodup_mem ZipEntry.name entries e hnodup he
    simp [hl]

theorem c6_success_fingerprints_witness :
    (getDeploymentArtifact stW "release-bucket" "app.zip" none = Except.ok entriesW
      ∧ (entriesW.map ZipEntry.name).Nodup)
    ∧ (Deploy noFailEnv stW "release-bucket" "site-bucket" "app.zip" none).1
        = Except.ok (getDeploymentArtifactFileHashes entriesW) :=
  ⟨⟨by decide, by decide⟩,
   (c6_success_fingerprints noFailEnv stW "release-bucket" "site-bucket" "app.zip" none
     entriesW (by decide) (by decide) (by decide)).1⟩

/-- Claim C10: when the archive carries several entries with the same name,
the per-entry loops run in archive order, so the returned FingerprintSet
maps the name to the MD5 of the LAST occurrence's payload and the target
bucket ends up holding the last occurrence's bytes — last occurrence wins
consistently in both. -/
theorem c10_duplicate_last_wins (env : S3Env) (st : S3State) (sB tB key : String)
    (v : Option String) (entries : List ZipEntry) (n : String)
    (hfetch : getDeploymentArtifact st sB key v = Except.ok entries)
    (hok : ∀ e ∈ entries, env.putFail tB e.name = none)
    (hn : n ∈ entries.map ZipEntry.name) :
    ∃ last, lastEntryNamed entries n = some last ∧ last.name = n
      ∧ (Deploy env st sB tB key v).1 = Except.ok (getDeploymentArtifactFileHashes entries)
      ∧ alookup (getDeploymentArtifactFileHashes entries) n = some (md5hex last.content)
      ∧ alookup (Deploy env st sB tB key v).2.objects (tB, n)
          = some (S3Object.blob last.content (resolveContentType last.name last.content)) := by
  have hd := deploy_ok env st sB tB key v entries hfetch hok
  have hsome : (lastEntryNamed entries n).isSome := by
    unfold lastEntryNamed
    exact (finalVal_isSome_iff ZipEntry.name entries n).mpr hn
  obtain ⟨last, hl⟩ := Option.isSome_iff_exists.mp hsome
  refine ⟨last, hl, finalVal_key ZipEntry.name entries n last hl, by rw [hd], ?_, ?_⟩
  · rw [alookup_hashes, hl]
    rfl
  · rw [hd]
    show alookup (putAll tB entries st).objects (tB, n) = _
    rw [alookup_putAll_objects]
    simp [hl]

theorem c10_duplicate_last_wins_witness :
    ("index.html" ∈ entriesDup.map ZipEntry.name
      ∧ lastEntryNamed entriesDup "index.html" = some ⟨"index.html", asciiBytes "new"⟩)
    ∧ alookup (getDeploymentArtifactFileHashes entriesDup) "index.html"
        = some (md5hex (asciiBytes "new")) := by
  have h := c10_duplicate_last_wins noFailEnv stDup "release-bucket" "site-bucket" "app.zip"
    none entriesDup "index.html" (by decide) (by decide) (by decide)
  obtain ⟨last, hl, hname, hdep, hh, hs⟩ := h
  have hcomp : lastEntryNamed entriesDup "index.html"
      = some ⟨"index.html", asciiBytes "new"⟩ := by decide
  have hlast : last = ⟨"index.html", asciiBytes "new"⟩ :=
    Option.some.inj (hl.symm.trans hcomp)
  refine ⟨⟨by decide, hcomp⟩, ?_⟩
  rw [hh, hlast]

/-- Claim C8: deploying the same archive to the same target twice in a row
returns the same FingerprintSet from both runs and leaves the target
bucket's observable contents identical after the first and the second run:
every object lookup agrees, because every entry is unconditionally
re-uploaded with the same bytes. The source bucket is taken distinct from
the target bucket, since a deployment into the bucket holding the archive
object could overwrite the archive itself between the runs. -/
theorem c8_deploy_idempotent (env : S3Env) (st : S3State) (sB tB key : String)
    (v : Option String) (entries : List ZipEntry)
    (hneq : sB ≠ tB)
    (hfetch : getDeploymentArtifact st sB key v = Except.ok entries)
    (hok : ∀ e ∈ entries, env.putFail tB e.name = none) :
    (Deploy env (Deploy env st sB tB key v).2 sB tB key v).1
        = (Deploy env st sB tB key v).1
    ∧ ∀ b k, alookup (Deploy env (Deploy env st sB tB key v).2 sB tB key v).2.objects (b, k)
        = alookup (Deploy env st sB tB key v).2.objects (b, k) := by
  have hd1 := deploy_ok env st sB tB key v entries hfetch hok
  have hfetch2 : getDeploymentArtifact (putAll tB entries st) sB key v
      = Except.ok entries := by
    rw [getDeploymentArtifact_ok_iff] at hfetch ⊢
    rw [alookup_putAll_objects]
    simp [hneq, hfetch]
  have hd2 := deploy_ok env (putAll tB entries st) sB tB key v entries hfetch2 hok
  constructor
  · rw [hd1]
    show (Deploy env (putAll tB entries st) sB tB key v).1 = _
    rw [hd2]
  · intro b k
    rw [hd1]
    show alookup (Deploy env (putAll tB entries st) sB tB key v).2.objects (b, k)
        = alookup (putAll tB entries st).objects (b, k)
    rw [hd2]
    show alookup (putAll tB entries (putAll tB entries st)).objects (b, k) = _
    rw [alookup_putAll_objects tB entries (putAll tB entries st) b k]
    by_cases hb : b = tB
    · subst hb
      cases hl : lastEntryNamed entries k with
      | some e =>
        rw [alookup_putAll_objects]
        simp [hl]
      | none => simp [hl]
    · simp [hb]

theorem c8_deploy_idempotent_witness :
    (("release-bucket" : String) ≠ "site-bucket"
      ∧ getDeploymentArtifact stW "release-bucket" "app.zip" none = Except.ok entriesW)
    ∧ (Deploy noFailEnv (Deploy noFailEnv stW "release-bucket" "site-bucket" "app.zip" none).2
         "release-bucket" "site-bucket" "app.zip" none).1
        = (Deploy noFailEnv stW "release-bucket" "site-bucket" "app.zip" none).1 :=
  ⟨⟨by decide, by decide⟩,
   (c8_deploy_idempotent noFailEnv stW "release-bucket" "site-bucket" "app.zip" none
     entriesW (by decide) (by decide) (by decide)).1⟩

/-- Claim C9 counterexample: the claim says a locator with an empty bucket
or key part is rejected with a FormatError before any storage call. The
locator string with an empty bucket part splits into two parts, one of
them empty, yet runDeployment accepts it: against a store holding a ZIP
under the empty bucket name it reports no error at all and writes to the
target bucket — a storage deployment ran instead of a format rejection. -/
theorem c9_empty_bucket_accepted :
    goSplitN2 "/key" '/' = ["", "key"]
    ∧ (runDeployment noFailEnv stEmptyBucketName dataEmptyBucket).1 = none
    ∧ (runDeployment noFailEnv stEmptyBucketName dataEmptyBucket).2 ≠ stEmptyBucketName := by
  decide

/-- Claim C9 (amended): a locator string that does not split into exactly
two parts on the first separator (that is, one with no separator at all)
is rejected with the invalid-source-format error; the rejection happens
before any storage interaction — the state is returned unchanged for every
store and environment. Emptiness of the two parts is not checked. -/
theorem c9_format_rejection (env : S3Env) (st : S3State) (data : DeploymentResourceModel)
    (h : (goSplitN2 data.source '/').length ≠ 2) :
    runDeployment env st data
      = (some ("invalid source format: " ++ goSliceFormat (goSplitN2 data.source '/')), st) := by
  unfold runDeployment
  cases hs : goSplitN2 data.source '/' with
  | nil => rfl
  | cons a rest =>
    cases rest with
    | nil => rfl
    | cons b rest2 =>
      cases rest2 with
      | nil =>
        rw [hs] at h
        exact absurd rfl h
      | cons c rest3 => rfl

theorem c9_format_rejection_witness :
    ((goSplitN2 "not-a-valid-locator" '/').length ≠ 2)
    ∧ runDeployment noFailEnv stEmpty dataNoSep
        = (some ("invalid source format: "
            ++ goSliceFormat (goSplitN2 "not-a-valid-locator" '/')), stEmpty) :=
  ⟨by decide, c9_format_rejection noFailEnv stEmpty dataNoSep (by decide)⟩
